import Mathlib

/-!
Shallow embedding of the core of the `adder-codec-rs` repository, together with
theorems checking the natural-language specification against it.

Embedding conventions:
* Rust `u8`/`u16`/`u32`/`u64`/`usize` values are modelled as `Nat`, `i64` as
  `Int`; overflow/underflow points that the claims touch are modelled
  explicitly (a panicking operation yields an error value).
* Rust `f32` state of the pixel tree is modelled by exact rationals (`ℚ`);
  the only claims stated about it use exact arithmetic formulas from the spec.
* Fallible or panicking code returns `Option`/`Except`; `Except PanicKind _`
  distinguishes the panic that occurred.
* `ndarray::Array3` values are modelled as flat lists indexed in row-major
  order by `idx3`, with the per-dimension bounds checks made explicit.
-/

namespace Adder

/-- Panic kinds of the modelled Rust code: unsigned subtraction underflow,
division (or remainder) by zero, and any out-of-bounds indexing. -/
inductive PanicKind where
  | underflow
  | divByZero
  | indexOOB
  deriving DecidableEq, Repr

/-- `Coord` from `lib.rs`: pixel coordinate with optional channel. -/
structure Coord where
  x : Nat
  y : Nat
  c : Option Nat
  deriving DecidableEq, Repr

/-- `Event` from `lib.rs`: coordinate, decimation `d` (u8) and `delta_t` (u32). -/
structure Event where
  coord : Coord
  d : Nat
  delta_t : Nat
  deriving DecidableEq, Repr

/-- `EventCoordless` (`framer/driver.rs` / pixel tree): an event without its
spatial coordinate. -/
structure EventCoordless where
  d : Nat
  delta_t : Nat
  deriving DecidableEq, Repr

/-- `SourceCamera` enum from `lib.rs`. -/
inductive SourceCamera where
  | framedU8
  | framedU16
  | framedU32
  | framedU64
  | framedF32
  | framedF64
  | dvs
  | davisU8
  | atis
  | asint
  deriving DecidableEq, Repr

/-- The `match source_camera` arm of `ingest_event_for_chunk`
(`framer/driver.rs`, lines 820-832): `true` exactly for the framed variants. -/
def SourceCamera.isFramed : SourceCamera → Bool
  | .framedU8 | .framedU16 | .framedU32 | .framedU64 | .framedF32 | .framedF64 => true
  | .dvs | .davisU8 | .atis | .asint => false

/-- `D_SHIFT` from `lib.rs`: `pub const D_SHIFT: [u32; 9] = [1, 2, 4, 8, 16, 32, 64, 128, 256]`. -/
def D_SHIFT : List Nat := [1, 2, 4, 8, 16, 32, 64, 128, 256]

theorem D_SHIFT_get (d : Nat) (h : d < 9) : D_SHIFT.get? d = some (2 ^ d) := by
  interval_cases d <;> rfl

/-! ## Pixel integration tree (`src/transcoder/event_pixel_tree.rs`)

The node's `f32` fields are modelled as exact rationals. -/

/-- `PixelState` from `event_pixel_tree.rs`: decimation level, running
integration, running time. -/
structure PixelState where
  d : Nat
  integration : ℚ
  delta_t : ℚ
  deriving DecidableEq, Repr

/-- `PixelNode` from `event_pixel_tree.rs`: its own state and pending best
event, plus an optional owned `alt` child (a linear chain). `leaf` is a node
with `alt = None`; `cons` is a node with `alt = Some child`. -/
inductive PixelNode where
  | leaf (state : PixelState) (best_event : Option EventCoordless)
  | cons (state : PixelState) (best_event : Option EventCoordless) (alt : PixelNode)
  deriving DecidableEq, Repr

namespace PixelNode

def state : PixelNode → PixelState
  | .leaf s _ => s
  | .cons s _ _ => s

def best_event : PixelNode → Option EventCoordless
  | .leaf _ b => b
  | .cons _ b _ => b

def alt : PixelNode → Option PixelNode
  | .leaf _ _ => none
  | .cons _ _ a => some a

/-- Replace a node's own `state` and `best_event`, keeping its `alt` child. -/
def withSB : PixelNode → PixelState → Option EventCoordless → PixelNode
  | .leaf _ _, s, b => .leaf s b
  | .cons _ _ a, s, b => .cons s b a

end PixelNode

/-- The `as DeltaT` cast of a (nonnegative) float to `u32` in
`event_pixel_tree.rs` line 63: truncation toward zero (negative values
saturate to zero, as in Rust). -/
def toDeltaT (q : ℚ) : Nat := q.floor.toNat

/-- Floor of the base-2 logarithm, by structural recursion on a fuel bound
(`n` itself suffices since the argument halves each step). -/
def natLog2Aux : Nat → Nat → Nat
  | 0, _ => 0
  | fuel + 1, n => if n ≥ 2 then natLog2Aux fuel (n / 2) + 1 else 0

/-- Floor of the base-2 logarithm of a natural number (0 for `n ≤ 1`). -/
def natLog2 (n : Nat) : Nat := natLog2Aux n n

/-- Models `fast_math::log2_raw(x) as D` (`event_pixel_tree.rs` line 22).
`log2_raw` is an approximate `f32` log2; it is modelled as the exact floor of
the base-2 logarithm (values below 1 give 0, as the `u8` cast saturates). -/
def log2D (q : ℚ) : Nat := natLog2 q.floor.toNat

/-- `PixelNode::new(start_intensity)`: `d = log2(start_intensity)`, zero
integration and time, no pending event, no `alt`. -/
def PixelNode.new (start_intensity : ℚ) : PixelNode :=
  .leaf ⟨log2D start_intensity, 0, 0⟩ none

/-- Core of `PixelNode::integrate_main` (`event_pixel_tree.rs` lines 51-91),
acting on the node's own `state`/`best_event` (the `alt` child is untouched by
the Rust function). Returns the updated `(state, best_event)` pair and, when
residual intensity remains after an overflow, the freshly created node together
with the residual `(intensity, time)`. `none` models the panic of indexing
`D_SHIFT` out of bounds. -/
def integrateMainSB (s : PixelState) (b : Option EventCoordless) (intensity time : ℚ) :
    Option ((PixelState × Option EventCoordless) × Option (PixelNode × ℚ × ℚ)) :=
  match D_SHIFT.get? s.d with
  | none => none
  | some thr =>
    if s.integration + intensity ≥ (thr : ℚ) then
      let prop : ℚ := ((thr : ℚ) - s.integration) / intensity
      let b' : Option EventCoordless :=
        some ⟨s.d, toDeltaT (s.delta_t + time * prop)⟩
      let s' : PixelState :=
        ⟨s.d + 1, s.integration + intensity, s.delta_t + time⟩
      if intensity - intensity * prop > 0 then
        some ((s', b'),
          some (PixelNode.new intensity, intensity - intensity * prop, time - time * prop))
      else
        some ((s', b'), none)
    else
      some ((⟨s.d, s.integration + intensity, s.delta_t + time⟩, b), none)

/-- `PixelNode::integrate_main` on a whole node. -/
def PixelNode.integrate_main (n : PixelNode) (intensity time : ℚ) :
    Option (PixelNode × Option (PixelNode × ℚ × ℚ)) :=
  match integrateMainSB n.state n.best_event intensity time with
  | none => none
  | some ((s', b'), res) => some (n.withSB s' b', res)

/-- `PixelNode::integrate` (`event_pixel_tree.rs` lines 34-49).
`fuel` bounds the recursion depth (the Rust recursion terminates because each
nested overflow removes at least `2^d ≥ 1` of residual intensity); `none`
models either a panic or fuel exhaustion. Note the faithful quirk of line 41:
when the main node does not return a residual and an `alt` child exists, the
child receives `integrate_main` only, and that call's returned residual is
discarded. -/
def integrate : Nat → PixelNode → ℚ → ℚ → Option PixelNode
  | 0, _, _, _ => none
  | Nat.succ fuel, n, intensity, time =>
    match integrateMainSB n.state n.best_event intensity time with
    | none => none
    | some ((s', b'), some (altNew, ri, rt)) =>
      match integrate fuel altNew ri rt with
      | none => none
      | some a' => some (.cons s' b' a')
    | some ((s', b'), none) =>
      match n.alt with
      | none => some (n.withSB s' b')
      | some a =>
        match integrateMainSB a.state a.best_event intensity time with
        | none => none
        | some ((as', ab'), _residualDiscarded) =>
          some (.cons s' b' (a.withSB as' ab'))

/-- `PixelNode::pop_and_reset_state` (`event_pixel_tree.rs` lines 102-118):
collects the chain's `best_event`s root-to-leaf and returns the deepest
node's state; `none` models the `panic!("No best event!")`. -/
def popAndResetState : PixelNode → Option (List EventCoordless × PixelState)
  | .leaf _ none => none
  | .cons _ none _ => none
  | .leaf s (some e) => some ([e], s)
  | .cons _ (some e) a =>
    match popAndResetState a with
    | none => none
    | some (l, st) => some (e :: l, st)

/-- `PixelNode::pop_best_events` (`event_pixel_tree.rs` lines 94-100): pops
the chain's events, resets the node's state to the bottom-most residual state,
and clears `alt` and `best_event`. -/
def PixelNode.pop_best_events (n : PixelNode) : Option (List EventCoordless × PixelNode) :=
  match popAndResetState n with
  | none => none
  | some (l, st) => some (l, .leaf st none)

/-- The chain of `best_event` fields from root to leaf. -/
def chainBests : PixelNode → List (Option EventCoordless)
  | .leaf _ b => [b]
  | .cons _ b a => b :: chainBests a

/-- The state of the deepest node of the alt-chain. -/
def deepestState : PixelNode → PixelState
  | .leaf s _ => s
  | .cons _ _ a => deepestState a

end Adder

namespace Adder

/-- Helper for claim C4: `pop_and_reset_state` collects the chain's events in
root-to-leaf order and returns the deepest state, and panics (returns `none`)
exactly when some node of the chain has no pending `best_event`. -/
theorem popAndResetState_spec (n : PixelNode) :
    ((∀ b ∈ chainBests n, b.isSome) →
      popAndResetState n = some ((chainBests n).reduceOption, deepestState n)) ∧
    (none ∈ chainBests n → popAndResetState n = none) := by
  induction n with
  | leaf s b =>
    cases b with
    | none => simp [chainBests, popAndResetState]
    | some e => simp [chainBests, popAndResetState, deepestState, List.reduceOption]
  | cons s b a ih =>
    cases b with
    | none => simp [chainBests, popAndResetState]
    | some e =>
      constructor
      · intro h
        have ha := ih.1 (by
          intro x hx
          exact h x (by simp [chainBests, hx]))
        simp [chainBests, popAndResetState, ha, deepestState, List.reduceOption]
      · intro h
        have hmem : none ∈ chainBests a := by
          simpa [chainBests] using h
        simp [chainBests, popAndResetState, ih.2 hmem]

end Adder

namespace Adder

/-- C1: `integrate_main(intensity, time)` on a node with state
`(d, integration, delta_t)`: if `integration + intensity ≥ D_SHIFT[d] = 2^d`,
the node sets `best_event = {d, trunc(delta_t + time * prop)}` with
`prop = (2^d - integration) / intensity`, then increments `d` and adds the
full intensity and time to its state; otherwise it only adds intensity and
time and emits no event. -/
theorem integrate_main_spec (n : PixelNode) (i t : ℚ) (hd : n.state.d < 9) :
    (n.state.integration + i ≥ (2 : ℚ) ^ n.state.d →
      ∃ res, n.integrate_main i t =
        some (n.withSB
          ⟨n.state.d + 1, n.state.integration + i, n.state.delta_t + t⟩
          (some ⟨n.state.d,
            toDeltaT (n.state.delta_t +
              t * (((2 : ℚ) ^ n.state.d - n.state.integration) / i))⟩), res)) ∧
    (n.state.integration + i < (2 : ℚ) ^ n.state.d →
      n.integrate_main i t =
        some (n.withSB ⟨n.state.d, n.state.integration + i, n.state.delta_t + t⟩
          n.best_event, none)) := by
  have hD : D_SHIFT.get? n.state.d = some (2 ^ n.state.d) := D_SHIFT_get _ hd
  have hcast : ((2 ^ n.state.d : ℕ) : ℚ) = (2 : ℚ) ^ n.state.d := by push_cast; ring
  constructor
  · intro hge
    unfold PixelNode.integrate_main integrateMainSB
    rw [hD]
    simp only [hcast]
    rw [if_pos hge]
    by_cases hres :
        i - i * (((2 : ℚ) ^ n.state.d - n.state.integration) / i) > 0
    · exact ⟨_, by rw [if_pos hres]⟩
    · exact ⟨none, by rw [if_neg hres]⟩
  · intro hlt
    unfold PixelNode.integrate_main integrateMainSB
    rw [hD]
    simp only [hcast]
    rw [if_neg (by exact not_le.mpr hlt)]

unseal Rat.add Rat.mul Rat.sub Rat.inv in
/-- Witness for C1 at the repository's own test input: a fresh node of start
intensity 100 (`d = 6`) receiving `integrate_main(100, 20)`. -/
theorem integrate_main_spec_witness :
    ∃ res, (PixelNode.new 100).integrate_main 100 20 =
      some ((PixelNode.new 100).withSB
        ⟨(PixelNode.new 100).state.d + 1, (PixelNode.new 100).state.integration + 100,
          (PixelNode.new 100).state.delta_t + 20⟩
        (some ⟨(PixelNode.new 100).state.d,
          toDeltaT ((PixelNode.new 100).state.delta_t +
            20 * (((2 : ℚ) ^ (PixelNode.new 100).state.d -
              (PixelNode.new 100).state.integration) / 100))⟩), res) :=
  (integrate_main_spec (PixelNode.new 100) 100 20 (by decide)).1 (by decide)

/-- C4: when every node of the alt-chain holds a pending `best_event`,
`pop_best_events` returns those events ordered root-to-leaf (one per node),
sets the root's state to the deepest alt node's state, and leaves the node
with no alt child and no pending `best_event`; when any node of the chain
lacks a `best_event`, the call panics (modelled as `none`). -/
theorem pop_best_events_spec (n : PixelNode) :
    ((∀ b ∈ chainBests n, b.isSome) →
      n.pop_best_events =
        some ((chainBests n).reduceOption, .leaf (deepestState n) none)) ∧
    (none ∈ chainBests n → n.pop_best_events = none) := by
  constructor
  · intro h
    unfold PixelNode.pop_best_events
    rw [(popAndResetState_spec n).1 h]
  · intro h
    unfold PixelNode.pop_best_events
    rw [(popAndResetState_spec n).2 h]

/-- Witness for C4 on the two-node chain reached in the repository's
`test_make_tree` after two integrations. -/
theorem pop_best_events_spec_witness :
    (PixelNode.cons ⟨8, 200, 40⟩ (some ⟨7, 25⟩)
        (PixelNode.leaf ⟨7, 72, 72/5⟩ (some ⟨6, 12⟩))).pop_best_events =
      some ([⟨7, 25⟩, ⟨6, 12⟩], .leaf ⟨7, 72, 72/5⟩ none) :=
  (pop_best_events_spec _).1 (by decide)

end Adder

namespace Adder

/-- Sum of the `D_SHIFT[d] = 2^d` integration equivalents of a list of popped
events (the quantity the spec's conservation law sums). -/
def eventsDSum (l : List EventCoordless) : ℚ :=
  (l.map fun e => ((D_SHIFT.getD e.d 0 : ℕ) : ℚ)).sum

/-- A concrete run of the pixel tree: a fresh node of start intensity 200
(`d = 7`) receives `integrate(120, 10)`, `integrate(70, 10)`,
`integrate(10, 1)` (total intensity 200), then `pop_best_events`. -/
def conservationTrace : Option (List EventCoordless × PixelNode) :=
  match integrate 100 (PixelNode.new 200) 120 10 with
  | none => none
  | some n1 =>
    match integrate 100 n1 70 10 with
    | none => none
    | some n2 =>
      match integrate 100 n2 10 1 with
      | none => none
      | some n3 => n3.pop_best_events

unseal Rat.add Rat.mul Rat.sub Rat.inv in
/-- C8 fails on the code: on `conservationTrace` the pop succeeds and returns
the events `(d=7, Δt=11)` and `(d=6, Δt=9)` with residual state
`(d=7, integration=72, delta_t=69/7)`, so the popped `2^d` sum plus the
residual integration is `128 + 64 + 72 = 264`, while the total intensity
integrated is `120 + 70 + 10 = 200`. The third `integrate` call takes the
branch at `event_pixel_tree.rs` line 41, which discards the alt node's
overflow residual (8 units of intensity), and the alt node's own integration
double-counts intensity already accounted to the root, so conservation is
violated. -/
theorem conservation_violated :
    conservationTrace =
      some ([⟨7, 11⟩, ⟨6, 9⟩], .leaf ⟨7, 72, 69/7⟩ none) ∧
    eventsDSum [⟨7, 11⟩, ⟨6, 9⟩] + (72 : ℚ) = 264 ∧
    ((120 : ℚ) + 70 + 10 = 200) ∧ (264 : ℚ) ≠ 200 := by
  refine ⟨by decide, by decide, by decide, by decide⟩

end Adder

namespace Adder

/-! ## Block & Cube aggregator (`adder-codec-rs/src/codec/compressed/mod4.rs`)

The constant `BLOCK_SIZE_BIG` is declared in `codec/compressed/mod.rs`, which
is not part of the sources; all definitions are therefore parameterized by the
block side `bs` and the slot count `area` (`BLOCK_SIZE_BIG * BLOCK_SIZE_BIG`).
The claims hold for every value of these parameters. -/

/-- `BlockError` from `mod4.rs`. -/
inductive BlockError where
  | alreadyExists (idx : Nat)
  deriving DecidableEq, Repr

/-- `EventCoordless::from(Event)` (drops the coordinate). -/
def EventCoordless.ofEvent (e : Event) : EventCoordless := ⟨e.d, e.delta_t⟩

/-- `Block3` from `mod4.rs`: a fixed-size array of optional coordless events. -/
structure Block3 where
  events : List (Option EventCoordless)
  deriving DecidableEq, Repr

/-- `Block3::new`: all slots empty. -/
def Block3.new (area : Nat) : Block3 := ⟨List.replicate area none⟩

/-- `Block3::set_event` (`mod4.rs` lines 34-43): writing an occupied slot is
`AlreadyExists { idx }`; a free slot receives the event. `none` models the
panic of indexing `events` out of bounds. -/
def Block3.set_event (b : Block3) (event : Event) (idx : Nat) :
    Option (Except BlockError Block3) :=
  match b.events.get? idx with
  | none => none
  | some (some _) => some (.error (.alreadyExists idx))
  | some none => some (.ok ⟨b.events.set idx (some (EventCoordless.ofEvent event))⟩)

/-- `set_event_for_channel` (`mod4.rs` lines 98-114). Returns the call's
result together with the final states of `block_vec` and `block_idx_map`
(the Rust function mutates them in place); `none` models an indexing panic. -/
def set_event_for_channel (area : Nat) (block_vec : List Block3)
    (block_idx_map : List Nat) (event : Event) (idx : Nat) :
    Option (Except BlockError Unit × List Block3 × List Nat) :=
  match block_idx_map.get? idx with
  | none => none
  | some mi =>
    let bv := if mi > block_vec.length then block_vec ++ [Block3.new area] else block_vec
    match bv.get? mi with
    | none => none
    | some b =>
      match b.set_event event idx with
      | none => none
      | some (.error er) => some (.error er, bv, block_idx_map)
      | some (.ok b2) => some (.ok (), bv.set mi b2, block_idx_map.set idx (mi + 1))

/-- `Cube3` from `mod4.rs`: one block vector and one per-position open-index
map per color channel. -/
structure Cube3 where
  blocks_r : List Block3
  blocks_g : List Block3
  blocks_b : List Block3
  cube_idx_y : Nat
  cube_idx_x : Nat
  cube_idx_c : Nat
  block_idx_map_r : List Nat
  block_idx_map_g : List Nat
  block_idx_map_b : List Nat
  deriving DecidableEq, Repr

/-- `Cube3::new`: one empty block per channel, open-index maps all zero. -/
def Cube3.new (area cube_idx_y cube_idx_x cube_idx_c : Nat) : Cube3 :=
  ⟨[Block3.new area], [Block3.new area], [Block3.new area],
    cube_idx_y, cube_idx_x, cube_idx_c,
    List.replicate area 0, List.replicate area 0, List.replicate area 0⟩

/-- `Cube3::event_coord_to_block_idx` (`mod4.rs` lines 87-95); `none` models
the usize-subtraction underflow panic. -/
def Cube3.event_coord_to_block_idx (cu : Cube3) (bs : Nat) (event : Event) :
    Option (Nat × Nat) :=
  if cu.cube_idx_y / bs > event.coord.y then none
  else if cu.cube_idx_x / bs > event.coord.x then none
  else some ((event.coord.y - cu.cube_idx_y / bs) * bs + (event.coord.x - cu.cube_idx_x / bs),
    event.coord.c.getD 0)

/-- `Cube3::set_event` (`mod4.rs` lines 75-84); `none` also models the
`panic!("Invalid color")` arm. -/
def Cube3.set_event (bs area : Nat) (cu : Cube3) (event : Event) :
    Option (Except BlockError Unit × Cube3) :=
  match cu.event_coord_to_block_idx bs event with
  | none => none
  | some (idx, c) =>
    match c with
    | 0 => (set_event_for_channel area cu.blocks_r cu.block_idx_map_r event idx).map
        fun r => (r.1, { cu with blocks_r := r.2.1, block_idx_map_r := r.2.2 })
    | 1 => (set_event_for_channel area cu.blocks_g cu.block_idx_map_g event idx).map
        fun r => (r.1, { cu with blocks_g := r.2.1, block_idx_map_g := r.2.2 })
    | 2 => (set_event_for_channel area cu.blocks_b cu.block_idx_map_b event idx).map
        fun r => (r.1, { cu with blocks_b := r.2.1, block_idx_map_b := r.2.2 })
    | _ + 3 => none

end Adder

namespace Adder

/-- The event of the repository's own `mod4.rs` test: position `(0, 0)`,
channel 0, `d = 7`, `delta_t = 100`. -/
def cubeTestEvent : Event := ⟨⟨0, 0, some 0⟩, 7, 100⟩

/-- C2 fails on the code: on a freshly constructed cube (block side 4,
16 slots) the first `set_event` at a position succeeds and advances that
position's open-index to 1 while the channel still has a single block; the
second `set_event` at the same position panics (`none`): because of the
strict `>` in `if block_idx_map[idx] > block_vec.len()` (`mod4.rs` line 104)
no new block is appended, and `block_vec[1]` is indexed out of bounds, so the
second visit is not stored in a second block. -/
theorem cube_repeat_set_event_panics :
    ((Cube3.set_event 4 16 (Cube3.new 16 0 0 0) cubeTestEvent).map
        fun r => (r.1, r.2.block_idx_map_r.get? 0, r.2.blocks_r.length)) =
      some (.ok (), some 1, 1) ∧
    ((Cube3.set_event 4 16 (Cube3.new 16 0 0 0) cubeTestEvent).bind
        fun r => Cube3.set_event 4 16 r.2 cubeTestEvent) = none := by
  exact ⟨rfl, rfl⟩

end Adder

namespace Adder

/-- C5: `Block3::set_event` on an occupied slot returns `AlreadyExists`
carrying that slot index, and when `set_event_for_channel` returns an error
nothing has changed: the block vector and the per-position open-index map are
returned exactly as they were (the error is always `AlreadyExists idx`). -/
theorem set_event_already_exists_spec :
    (∀ (b : Block3) (e : Event) (idx : Nat) (ev : EventCoordless),
      b.events.get? idx = some (some ev) →
      b.set_event e idx = some (.error (.alreadyExists idx))) ∧
    (∀ (area : Nat) (bv : List Block3) (m : List Nat) (e : Event) (idx : Nat)
      (er : BlockError) (bv' : List Block3) (m' : List Nat),
      set_event_for_channel area bv m e idx = some (.error er, bv', m') →
      er = .alreadyExists idx ∧ bv' = bv ∧ m' = m) := by
  constructor
  · intro b e idx ev h
    unfold Block3.set_event
    rw [h]
  · intro area bv m e idx er bv' m' h
    unfold set_event_for_channel at h
    cases hm : m.get? idx with
    | none => rw [hm] at h; exact absurd h (by simp)
    | some mi =>
      rw [hm] at h
      simp only at h
      by_cases hgt : mi > bv.length
      · rw [if_pos hgt] at h
        have hnone : (bv ++ [Block3.new area]).get? mi = none := by
          rw [List.get?_eq_none]
          simp only [List.length_append, List.length_singleton]
          omega
        rw [hnone] at h
        exact absurd h (by simp)
      · rw [if_neg hgt] at h
        cases hb : bv.get? mi with
        | none => rw [hb] at h; exact absurd h (by simp)
        | some b =>
          rw [hb] at h
          simp only at h
          cases hset : b.set_event e idx with
          | none => rw [hset] at h; exact absurd h (by simp)
          | some r =>
            rw [hset] at h
            cases r with
            | ok b2 => simp at h
            | error er0 =>
              simp only [Option.some.injEq, Prod.mk.injEq, Except.error.injEq] at h
              obtain ⟨her, hbv, hm'⟩ := h
              refine ⟨?_, hbv.symm, hm'.symm⟩
              unfold Block3.set_event at hset
              cases hev : b.events.get? idx with
              | none => rw [hev] at hset; exact absurd hset (by simp)
              | some o =>
                rw [hev] at hset
                cases o with
                | none => simp at hset
                | some ev =>
                  simp only [Option.some.injEq, Except.error.injEq] at hset
                  rw [← her, ← hset]

/-- Witness for C5: a one-slot block whose slot 0 is occupied, both as a bare
`Block3::set_event` call and through `set_event_for_channel`. -/
theorem set_event_already_exists_spec_witness :
    Block3.set_event ⟨[some ⟨7, 100⟩]⟩ cubeTestEvent 0 =
      some (.error (.alreadyExists 0)) ∧
    (BlockError.alreadyExists 0 = .alreadyExists 0 ∧
      ([(⟨[some ⟨7, 100⟩]⟩ : Block3)] : List Block3) = [⟨[some ⟨7, 100⟩]⟩] ∧
      ([0] : List Nat) = [0]) :=
  ⟨set_event_already_exists_spec.1 _ cubeTestEvent 0 ⟨7, 100⟩ rfl,
    set_event_already_exists_spec.2 1 [⟨[some ⟨7, 100⟩]⟩] [0] cubeTestEvent 0
      (.alreadyExists 0) [⟨[some ⟨7, 100⟩]⟩] [0] rfl⟩

end Adder

namespace Adder

/-! ## Frame sequence driver (`adder-codec-rs/src/framer/driver.rs`)

The pixel type `T` is modelled as `Nat` (the claims do not depend on the
concrete intensity representation). `T::get_frame_value` lives in
`framer/scale_intensity.rs`, which is not part of the sources; it enters as
an explicit function parameter `getFrameValue`, so the theorems hold for
every such mapping. `Array3` values are flat lists indexed by `idx3` with
per-dimension bounds checks (`rows`, `w`, `chn` are the chunk's dimensions). -/

/-- `Frame<T>` from `framer/driver.rs`: pixel buffer plus `filled_count`. -/
structure Frame where
  array : List (Option Nat)
  filled_count : Nat
  deriving DecidableEq, Repr

/-- Row-major flattening of an `ndarray` index `[[y, x, c]]`. -/
def idx3 (w chn y x c : Nat) : Nat := (y * w + x) * chn + c

/-- Number of filled (set) slots of a frame's array. -/
def setCount (f : Frame) : Nat := f.array.countP fun o => o.isSome

/-- `FrameSequenceError` from `framer/driver.rs`. -/
inductive FrameSequenceError where
  | invalidIndex
  | uninitializedFrame
  | uninitializedFrameChunk
  | badFillCount
  deriving DecidableEq, Repr

/-- The fill loop of `ingest_event_for_chunk` (`driver.rs` lines 802-815):
for `count` frame indices starting at `i`, when `i - frames_written + 1 ≥ 0`,
write intensity `v` into the pixel slot `(y, x, c)` of frame
`frame_chunk[i - frames_written + 1]` if it is unset, incrementing that
frame's `filled_count`; an already-set slot is left alone. Errors model the
indexing panics. -/
def fillLoop (rows w chn y x c v : Nat) (fw : Int) :
    Nat → Int → List Frame → Except PanicKind (List Frame)
  | 0, _, chunk => .ok chunk
  | k + 1, i, chunk =>
    if i - fw + 1 ≥ 0 then
      match chunk.get? (i - fw + 1).toNat with
      | none => .error .indexOOB
      | some f =>
        if y < rows ∧ x < w ∧ c < chn then
          match f.array.get? (idx3 w chn y x c) with
          | none => .error .indexOOB
          | some (some _) => fillLoop rows w chn y x c v fw k (i + 1) chunk
          | some none =>
            fillLoop rows w chn y x c v fw k (i + 1)
              (chunk.set (i - fw + 1).toNat
                ⟨f.array.set (idx3 w chn y x c) (some v), f.filled_count + 1⟩)
        else .error .indexOOB
    else fillLoop rows w chn y x c v fw k (i + 1) chunk

/-- The rate-halving step of `ingest_event_for_chunk` (`driver.rs` lines
818-837): for a framed source with codec version > 0, a running timestamp not
on a multiple of `ref_interval` is rounded up to the next multiple; otherwise
it is left unchanged. `divByZero` models `% 0`. -/
def rateHalve (codec_version : Nat) (source_camera : SourceCamera)
    (ref_interval ts1 : Nat) : Except PanicKind Nat :=
  if codec_version > 0 ∧ source_camera.isFramed = true then
    if ref_interval = 0 then .error .divByZero
    else if ts1 % ref_interval > 0 then .ok ((ts1 / ref_interval + 1) * ref_interval)
    else .ok ts1
  else .ok ts1

/-- The queue-growth step of `ingest_event_for_chunk` (`driver.rs` lines
773-800): when the growth (`last_filled_frame - frame_idx_offset`) is
positive, append that many fresh empty frames shaped like `frame_chunk[0]`;
a negative or zero growth leaves the queue alone. -/
def growFrames (frame_chunk : List Frame) (growth : Int) :
    Except PanicKind (List Frame) :=
  if growth > 0 then
    match frame_chunk.get? 0 with
    | none => .error .indexOOB
    | some f0 =>
      .ok (frame_chunk ++
        List.replicate growth.toNat ⟨List.replicate f0.array.length none, 0⟩)
  else .ok frame_chunk

/-- The body of the `if ((*running_ts_ref - 1) / tpf) > *last_filled_frame_ref`
branch of `ingest_event_for_chunk` (`driver.rs` lines 754-816): update the
intensity tracker (an empty event `d == 0xFF` carries the previous intensity
forward), advance the last-filled index to `newIdx`, grow the queue, and run
the fill loop. Returns the final queue, offset, last-filled index and
intensity. -/
def ingestStep3 (getFrameValue : Event → Nat) (rows w chn : Nat) (event : Event)
    (frame_chunk : List Frame) (frame_idx_offset last_filled_frame : Int)
    (last_frame_intensity : Nat) (frames_written : Int) (newIdx : Int) :
    Except PanicKind (List Frame × Int × Int × Nat) :=
  if newIdx > last_filled_frame then
    match growFrames frame_chunk (newIdx - frame_idx_offset) with
    | .error e => .error e
    | .ok chunk0 =>
      match fillLoop rows w chn event.coord.y event.coord.x (event.coord.c.getD 0)
          (if event.d ≠ 255 then getFrameValue event else last_frame_intensity)
          frames_written (newIdx - last_filled_frame).toNat
          last_filled_frame chunk0 with
      | .error e => .error e
      | .ok chunk1 =>
        .ok (chunk1,
          if newIdx - frame_idx_offset > 0 then frame_idx_offset + (newIdx - frame_idx_offset)
          else frame_idx_offset,
          newIdx, if event.d ≠ 255 then getFrameValue event else last_frame_intensity)
  else .ok (frame_chunk, frame_idx_offset, last_filled_frame, last_frame_intensity)

/-- `ingest_event_for_chunk` (`driver.rs` lines 729-842). Returns the final
values of the in-place-mutated state: the frame queue, the pixel's running
timestamp, the chunk's frame-index offset, the pixel's last-filled-frame
index, the pixel's last intensity, and the `filled_count == len` result for
the front frame (`driver.rs` line 841). Panics are explicit errors:
`underflow` is the `(*running_ts_ref - 1)` u64 underflow at line 753,
`divByZero` covers `/ tpf` and `% ref_interval` with a zero divisor,
`indexOOB` the out-of-bounds frame and array accesses. -/
def ingest_event_for_chunk (getFrameValue : Event → Nat) (rows w chn : Nat)
    (event : Event) (frame_chunk : List Frame) (running_ts : Nat)
    (frame_idx_offset last_filled_frame : Int) (last_frame_intensity : Nat)
    (frames_written : Int) (tpf codec_version : Nat)
    (source_camera : SourceCamera) (ref_interval : Nat) :
    Except PanicKind (List Frame × Nat × Int × Int × Nat × Bool) :=
  if running_ts + event.delta_t = 0 then .error .underflow
  else if tpf = 0 then .error .divByZero
  else
    match ingestStep3 getFrameValue rows w chn event frame_chunk frame_idx_offset
        last_filled_frame last_frame_intensity frames_written
        ((((running_ts + event.delta_t) - 1) / tpf : Nat) : Int) with
    | .error e => .error e
    | .ok (chunk1, offset1, lff1, intensity1) =>
      match rateHalve codec_version source_camera ref_interval
          (running_ts + event.delta_t) with
      | .error e => .error e
      | .ok ts2 =>
        match chunk1.get? 0 with
        | none => .error .indexOOB
        | some f0 =>
          .ok (chunk1, ts2, offset1, lff1, intensity1,
            decide (f0.filled_count = f0.array.length))

end Adder

namespace Adder

/-- Helper: what `rateHalve` returns in the framed, version-positive case. -/
theorem rateHalve_framed (cv : Nat) (cam : SourceCamera) (ri ts1 ts2 : Nat)
    (hcv : cv > 0) (hcam : cam.isFramed = true)
    (h : rateHalve cv cam ri ts1 = .ok ts2) :
    ts2 % ri = 0 ∧ (ts1 % ri = 0 → ts2 = ts1) ∧
      (ts1 % ri ≠ 0 → ts2 = (ts1 / ri + 1) * ri) := by
  unfold rateHalve at h
  rw [if_pos ⟨hcv, hcam⟩] at h
  split at h
  · exact absurd h (by simp)
  · rename_i hri
    split at h
    · rename_i hmod
      simp only [Except.ok.injEq] at h
      subst h
      exact ⟨Nat.mul_mod_left _ _, fun hz => absurd hz (by omega), fun _ => rfl⟩
    · rename_i hmod
      simp only [Except.ok.injEq] at h
      subst h
      exact ⟨by omega, fun _ => rfl, fun hz => absurd (by omega) hz⟩

/-- Helper: `rateHalve` is the identity for event cameras or codec version 0. -/
theorem rateHalve_unframed (cv : Nat) (cam : SourceCamera) (ri ts1 : Nat)
    (hc : ¬(cv > 0 ∧ cam.isFramed = true)) :
    rateHalve cv cam ri ts1 = .ok ts1 := by
  unfold rateHalve
  rw [if_neg hc]

/-- C7: after a successful `ingest_event_for_chunk`, if the codec version is
positive and the source camera is framed, the pixel's running timestamp
tracker is an exact multiple of `ref_interval` — kept as the accumulated sum
when that already is a multiple, and rounded up to the next multiple
otherwise; for DVS/DAVIS/ATIS/Asint sources or codec version 0 the tracker is
exactly the accumulated sum (previous tracker plus this event's `delta_t`). -/
theorem rate_halving_spec (gfv : Event → Nat) (rows w chn : Nat) (event : Event)
    (chunk : List Frame) (ts : Nat) (off lff : Int) (li : Nat) (fw : Int)
    (tpf cv : Nat) (cam : SourceCamera) (ri : Nat)
    (chunk' : List Frame) (ts' : Nat) (rest : Int × Int × Nat × Bool)
    (h : ingest_event_for_chunk gfv rows w chn event chunk ts off lff li fw tpf cv cam ri =
      .ok (chunk', ts', rest)) :
    ((cv > 0 ∧ cam.isFramed = true) →
      ts' % ri = 0 ∧
      ((ts + event.delta_t) % ri = 0 → ts' = ts + event.delta_t) ∧
      ((ts + event.delta_t) % ri ≠ 0 →
        ts' = ((ts + event.delta_t) / ri + 1) * ri)) ∧
    (¬(cv > 0 ∧ cam.isFramed = true) → ts' = ts + event.delta_t) := by
  unfold ingest_event_for_chunk at h
  split at h
  · exact absurd h (by simp)
  split at h
  · exact absurd h (by simp)
  split at h
  · exact absurd h (by simp)
  rename_i hstep
  split at h
  · exact absurd h (by simp)
  rename_i ts2 hrate
  split at h
  · exact absurd h (by simp)
  simp only [Except.ok.injEq, Prod.mk.injEq] at h
  obtain ⟨-, hts2, -⟩ := h
  subst hts2
  constructor
  · intro hc
    exact rateHalve_framed cv cam ri _ _ hc.1 hc.2 hrate
  · intro hc
    rw [rateHalve_unframed cv cam ri _ hc] at hrate
    simpa using hrate.symm

/-- Witness for C7: a one-pixel chunk, codec version 1, framed U8 source,
`ref_interval = 1000`, previous tracker 0, `delta_t = 800`: the tracker is
rounded up to 1000. -/
theorem rate_halving_spec_witness :
    ((1 > 0 ∧ SourceCamera.framedU8.isFramed = true) →
      (1000 : Nat) % 1000 = 0 ∧
      ((0 + 800) % 1000 = 0 → (1000 : Nat) = 0 + 800) ∧
      ((0 + 800) % 1000 ≠ 0 → (1000 : Nat) = ((0 + 800) / 1000 + 1) * 1000)) ∧
    (¬(1 > 0 ∧ SourceCamera.framedU8.isFramed = true) → (1000 : Nat) = 0 + 800) :=
  rate_halving_spec (fun _ => 3) 1 1 1 ⟨⟨0, 0, none⟩, 5, 800⟩
    [⟨[none], 0⟩] 0 0 (-1) 0 0 5000 1 .framedU8 1000
    [⟨[some 3], 1⟩] 1000 (0, 0, 3, true) (by rfl)

end Adder

namespace Adder

/-- Helper: the fill loop only panics on indexing, never with `underflow`. -/
theorem fillLoop_no_underflow (rows w chn y x c v : Nat) (fw : Int) :
    ∀ (k : Nat) (i : Int) (chunk : List Frame),
      fillLoop rows w chn y x c v fw k i chunk ≠ .error .underflow := by
  intro k
  induction k with
  | zero => intro i chunk h; exact absurd h (by simp [fillLoop])
  | succ k ih =>
    intro i chunk h
    unfold fillLoop at h
    repeat' split at h
    all_goals first
      | exact ih _ _ h
      | exact absurd h (by simp)

/-- Helper: queue growth only panics on indexing, never with `underflow`. -/
theorem growFrames_no_underflow (chunk : List Frame) (growth : Int) :
    growFrames chunk growth ≠ .error .underflow := by
  intro h
  unfold growFrames at h
  split at h
  · split at h
    · exact absurd h (by simp)
    · exact absurd h (by simp)
  · exact absurd h (by simp)

/-- Helper: step 3 of the ingest never produces an `underflow` error. -/
theorem ingestStep3_no_underflow (gfv : Event → Nat) (rows w chn : Nat)
    (event : Event) (chunk : List Frame) (off lff : Int) (li : Nat)
    (fw newIdx : Int) :
    ingestStep3 gfv rows w chn event chunk off lff li fw newIdx ≠
      .error .underflow := by
  intro h
  unfold ingestStep3 at h
  repeat' split at h
  any_goals (simp at h ; done)
  all_goals rename_i e heq
  all_goals obtain rfl : e = PanicKind.underflow := by simpa using h
  all_goals first
    | exact growFrames_no_underflow _ _ heq
    | exact fillLoop_no_underflow _ _ _ _ _ _ _ _ _ _ _ heq

/-- Helper: rate halving never produces an `underflow` error. -/
theorem rateHalve_no_underflow (cv : Nat) (cam : SourceCamera) (ri ts1 : Nat) :
    rateHalve cv cam ri ts1 ≠ .error .underflow := by
  intro h
  unfold rateHalve at h
  split at h
  · split at h
    · exact absurd h (by simp)
    · split at h
      · exact absurd h (by simp)
      · exact absurd h (by simp)
  · exact absurd h (by simp)

/-- C10: `ingest_event_for_chunk` computes `running_ts - 1` in unsigned
arithmetic right after adding the event's `delta_t`; whenever the pixel's
accumulated timestamp is at least 1 at that point (in particular whenever
every `delta_t ≥ 1`), this subtraction does not underflow — the call never
fails with `underflow` — whereas the first event at a pixel with
`delta_t = 0` (tracker still 0) makes exactly that subtraction underflow. -/
theorem ts_underflow_spec :
    (∀ (gfv : Event → Nat) (rows w chn : Nat) (event : Event)
      (chunk : List Frame) (ts : Nat) (off lff : Int) (li : Nat) (fw : Int)
      (tpf cv : Nat) (cam : SourceCamera) (ri : Nat),
      1 ≤ ts + event.delta_t →
      ingest_event_for_chunk gfv rows w chn event chunk ts off lff li fw tpf cv cam ri ≠
        .error .underflow) ∧
    (∀ (gfv : Event → Nat) (rows w chn : Nat) (event : Event)
      (chunk : List Frame) (off lff : Int) (li : Nat) (fw : Int)
      (tpf cv : Nat) (cam : SourceCamera) (ri : Nat),
      event.delta_t = 0 →
      ingest_event_for_chunk gfv rows w chn event chunk 0 off lff li fw tpf cv cam ri =
        .error .underflow) := by
  constructor
  · intro gfv rows w chn event chunk ts off lff li fw tpf cv cam ri hts h
    unfold ingest_event_for_chunk at h
    rw [if_neg (by omega)] at h
    repeat' split at h
    any_goals (simp at h ; done)
    all_goals rename_i e heq
    all_goals obtain rfl : e = PanicKind.underflow := by simpa using h
    all_goals first
      | exact ingestStep3_no_underflow _ _ _ _ _ _ _ _ _ _ _ heq
      | exact rateHalve_no_underflow _ _ _ _ heq
  · intro gfv rows w chn event chunk off lff li fw tpf cv cam ri hdt
    unfold ingest_event_for_chunk
    rw [if_pos (by omega)]

/-- Witness for C10: a concrete no-underflow call (`ts = 0`, `delta_t = 1`)
and a concrete underflowing first event (`ts = 0`, `delta_t = 0`). -/
theorem ts_underflow_spec_witness :
    ingest_event_for_chunk (fun _ => 3) 1 1 1 ⟨⟨0, 0, none⟩, 5, 1⟩
        [⟨[none], 0⟩] 0 0 (-1) 0 0 1 0 .dvs 1 ≠ .error .underflow ∧
    ingest_event_for_chunk (fun _ => 3) 1 1 1 ⟨⟨0, 0, none⟩, 5, 0⟩
        [⟨[none], 0⟩] 0 0 (-1) 0 0 1 0 .dvs 1 = .error .underflow :=
  ⟨ts_underflow_spec.1 (fun _ => 3) 1 1 1 ⟨⟨0, 0, none⟩, 5, 1⟩
      [⟨[none], 0⟩] 0 0 (-1) 0 0 1 0 .dvs 1 (by decide),
    ts_underflow_spec.2 (fun _ => 3) 1 1 1 ⟨⟨0, 0, none⟩, 5, 0⟩
      [⟨[none], 0⟩] 0 (-1) 0 0 1 0 .dvs 1 rfl⟩

end Adder

namespace Adder

/-- Slot monotonicity between two frame queues: every already-set pixel slot
of every frame keeps its value. -/
def SlotMono (c c' : List Frame) : Prop :=
  ∀ fi f s v0, c.get? fi = some f → f.array.get? s = some (some v0) →
    ∃ f', c'.get? fi = some f' ∧ f'.array.get? s = some (some v0)

/-- The fill-count invariant: every frame's `filled_count` equals its number
of set slots. -/
def FillInv (c : List Frame) : Prop :=
  ∀ f ∈ c, f.filled_count = setCount f

theorem SlotMono.rfl (c : List Frame) : SlotMono c c :=
  fun _ f _ v0 hf hs => ⟨f, hf, hs⟩

theorem SlotMono.trans {a b c : List Frame} (h1 : SlotMono a b) (h2 : SlotMono b c) :
    SlotMono a c := by
  intro fi f s v0 hf hs
  obtain ⟨f1, hf1, hs1⟩ := h1 fi f s v0 hf hs
  exact h2 fi f1 s v0 hf1 hs1

/-- Setting a previously-unset slot raises the set-slot count by one. -/
theorem countP_set_of_none (l : List (Option Nat)) (pos v : Nat)
    (h : l.get? pos = some none) :
    ((l.set pos (some v)).countP fun o => o.isSome) =
      (l.countP fun o => o.isSome) + 1 := by
  induction l generalizing pos with
  | nil => simp at h
  | cons a t ih =>
    cases pos with
    | zero =>
      simp only [List.get?] at h
      obtain rfl : a = none := by simpa using h
      simp [List.countP_cons]
    | succ p =>
      simp only [List.get?] at h
      simp only [List.set, List.countP_cons, ih p h]
      omega

/-- One fill-loop write (set an unset slot, bump `filled_count`) preserves
slot monotonicity. -/
theorem slotMono_set (chunk : List Frame) (j pos v : Nat) (f : Frame)
    (hj : chunk.get? j = some f) (hpos : f.array.get? pos = some none) :
    SlotMono chunk
      (chunk.set j ⟨f.array.set pos (some v), f.filled_count + 1⟩) := by
  intro fi f0 s v0 hf0 hs0
  by_cases hij : j = fi
  · subst hij
    rw [hj] at hf0
    obtain rfl : f = f0 := by simpa using hf0
    have hlen : j < chunk.length := by
      by_contra hlen
      rw [List.get?_eq_none.mpr (le_of_not_lt hlen)] at hj
      cases hj
    refine ⟨⟨f.array.set pos (some v), f.filled_count + 1⟩, ?_, ?_⟩
    · rw [List.get?_set_eq, hj]
      rfl
    · have hsp : s ≠ pos := by
        intro hsp
        rw [hsp, hpos] at hs0
        cases hs0
      rw [List.get?_set_ne _ _ (fun hc => hsp hc.symm)]
      exact hs0
  · exact ⟨f0, by rw [List.get?_set_ne _ _ hij]; exact hf0, hs0⟩

/-- One fill-loop write preserves the fill-count invariant. -/
theorem fillInv_set (chunk : List Frame) (j pos v : Nat) (f : Frame)
    (hj : chunk.get? j = some f) (hpos : f.array.get? pos = some none)
    (hinv : FillInv chunk) :
    FillInv (chunk.set j ⟨f.array.set pos (some v), f.filled_count + 1⟩) := by
  intro f' hf'
  rcases List.mem_or_eq_of_mem_set hf' with hmem | rfl
  · exact hinv f' hmem
  · have hfc := hinv f (List.get?_mem hj)
    simp only [setCount] at hfc ⊢
    rw [countP_set_of_none f.array pos v hpos, ← hfc]

/-- The fill loop preserves slot monotonicity and the fill-count invariant. -/
theorem fillLoop_spec (rows w chn y x c v : Nat) (fw : Int) :
    ∀ (k : Nat) (i : Int) (chunk chunk' : List Frame),
      fillLoop rows w chn y x c v fw k i chunk = .ok chunk' →
      SlotMono chunk chunk' ∧ (FillInv chunk → FillInv chunk') := by
  intro k
  induction k with
  | zero =>
    intro i chunk chunk' h
    obtain rfl : chunk = chunk' := by simpa [fillLoop] using h
    exact ⟨SlotMono.rfl chunk, fun hi => hi⟩
  | succ k ih =>
    intro i chunk chunk' h
    unfold fillLoop at h
    split at h
    · cases hj : chunk.get? (i - fw + 1).toNat with
      | none => rw [hj] at h; cases h
      | some f =>
        rw [hj] at h
        simp only at h
        split at h
        · cases hpos : f.array.get? (idx3 w chn y x c) with
          | none => rw [hpos] at h; cases h
          | some o =>
            rw [hpos] at h
            cases o with
            | some v1 => exact ih _ _ _ h
            | none =>
              obtain ⟨hmono, hinv⟩ := ih _ _ _ h
              exact ⟨(slotMono_set chunk _ _ v f hj hpos).trans hmono,
                fun hi => hinv (fillInv_set chunk _ _ v f hj hpos hi)⟩
        · cases h
    · exact ih _ _ _ h

end Adder

namespace Adder

/-- Appending fresh empty frames preserves slot monotonicity and the
fill-count invariant (a fresh frame has `filled_count = 0` and no set slot). -/
theorem growFrames_spec (chunk : List Frame) (growth : Int) (chunk0 : List Frame)
    (h : growFrames chunk growth = .ok chunk0) :
    SlotMono chunk chunk0 ∧ (FillInv chunk → FillInv chunk0) := by
  unfold growFrames at h
  split at h
  · split at h
    · cases h
    · rename_i f0 hf0
      obtain rfl : chunk ++
          List.replicate growth.toNat ⟨List.replicate f0.array.length none, 0⟩ = chunk0 := by
        simpa using h
      constructor
      · intro fi f s v0 hf hs
        have hlen : fi < chunk.length := by
          by_contra hlen
          rw [List.get?_eq_none.mpr (le_of_not_lt hlen)] at hf
          cases hf
        refine ⟨f, ?_, hs⟩
        rw [List.get?_append hlen]
        exact hf
      · intro hi f' hf'
        rcases List.mem_append.mp hf' with hmem | hmem
        · exact hi f' hmem
        · obtain rfl := List.eq_of_mem_replicate hmem
          have hz : List.countP (fun o => o.isSome)
              (List.replicate f0.array.length (none : Option Nat)) = 0 := by
            rw [List.countP_eq_zero]
            intro a ha
            obtain rfl := List.eq_of_mem_replicate ha
            simp
          simp [setCount, hz]
  · obtain rfl : chunk = chunk0 := by simpa using h
    exact ⟨SlotMono.rfl chunk, fun hi => hi⟩

/-- Step 3 of the ingest preserves slot monotonicity and the fill-count
invariant. -/
theorem ingestStep3_spec (gfv : Event → Nat) (rows w chn : Nat) (event : Event)
    (chunk : List Frame) (off lff : Int) (li : Nat) (fw newIdx : Int)
    (chunk1 : List Frame) (o l : Int) (i2 : Nat)
    (h : ingestStep3 gfv rows w chn event chunk off lff li fw newIdx =
      .ok (chunk1, o, l, i2)) :
    SlotMono chunk chunk1 ∧ (FillInv chunk → FillInv chunk1) := by
  unfold ingestStep3 at h
  split at h
  · split at h
    · simp at h
    · rename_i chunk0 hg
      split at h
      · simp at h
      · rename_i c1 hf
        obtain ⟨rfl, -, -, -⟩ :
            c1 = chunk1 ∧ _ = o ∧ newIdx = l ∧ _ = i2 := by simpa using h
        obtain ⟨hm1, hi1⟩ := growFrames_spec chunk _ chunk0 hg
        obtain ⟨hm2, hi2⟩ := fillLoop_spec rows w chn _ _ _ _ fw _ _ chunk0 c1 hf
        exact ⟨hm1.trans hm2, fun hi => hi2 (hi1 hi)⟩
  · obtain ⟨rfl, -, -, -⟩ :
        chunk = chunk1 ∧ off = o ∧ lff = l ∧ li = i2 := by simpa using h
    exact ⟨SlotMono.rfl chunk, fun hi => hi⟩

/-- C3: a successful `ingest_event_for_chunk` changes pixel slots only from
unset to set (an already-set slot keeps its value), and — given the fill-count
invariant that each queued frame's `filled_count` equals its number of set
slots (true of freshly built frames, and preserved here because each write
that sets a slot bumps exactly that frame's count by one) — the invariant
still holds afterwards, so every frame's `filled_count` is at most the number
of pixel slots in its array. -/
theorem ingest_slot_fill_spec (gfv : Event → Nat) (rows w chn : Nat)
    (event : Event) (chunk : List Frame) (ts : Nat) (off lff : Int) (li : Nat)
    (fw : Int) (tpf cv : Nat) (cam : SourceCamera) (ri : Nat)
    (chunk' : List Frame) (rest : Nat × Int × Int × Nat × Bool)
    (h : ingest_event_for_chunk gfv rows w chn event chunk ts off lff li fw tpf cv cam ri =
      .ok (chunk', rest)) :
    SlotMono chunk chunk' ∧
    (FillInv chunk →
      FillInv chunk' ∧ ∀ f' ∈ chunk', f'.filled_count ≤ f'.array.length) := by
  unfold ingest_event_for_chunk at h
  split at h
  · simp at h
  split at h
  · simp at h
  split at h
  · simp at h
  rename_i chunk1 offset1 lff1 intensity1 hstep
  split at h
  · simp at h
  rename_i ts2 hrate
  split at h
  · simp at h
  rename_i f0 hf0
  have hc : chunk1 = chunk' := by
    simpa using congrArg (fun r => match r with | .ok p => p.1 | .error _ => []) h
  subst hc
  obtain ⟨hmono, hinv⟩ :=
    ingestStep3_spec gfv rows w chn event chunk off lff li fw _ chunk1 _ _ _ hstep
  refine ⟨hmono, fun hi => ⟨hinv hi, fun f' hf' => ?_⟩⟩
  rw [hinv hi f' hf']
  exact List.countP_le_length _

/-- Witness for C3: a one-pixel chunk receiving one event that fills its only
slot. -/
theorem ingest_slot_fill_spec_witness :
    SlotMono [⟨[none], 0⟩] [⟨[some 3], 1⟩] ∧
    (FillInv [⟨[none], 0⟩] →
      FillInv [⟨[some 3], 1⟩] ∧
        ∀ f' ∈ ([⟨[some 3], 1⟩] : List Frame),
          f'.filled_count ≤ f'.array.length) :=
  ingest_slot_fill_spec (fun _ => 3) 1 1 1 ⟨⟨0, 0, none⟩, 5, 1⟩
    [⟨[none], 0⟩] 0 0 (-1) 0 0 1 0 .dvs 1 [⟨[some 3], 1⟩]
    (1, 0, 0, 3, true) (by rfl)

end Adder

namespace Adder

/-- `FrameSequence<T>` from `framer/driver.rs` (the fields the modelled
operations touch; `T = Nat` as for `Frame`). Each chunk holds a deque of
frames and flat `Array3` trackers; `plane_w`/`plane_c` are the array
dimensions that `ndarray` carries internally. -/
structure FrameSequence where
  frames : List (List Frame)
  frames_written : Int
  frame_idx_offsets : List Int
  pixel_ts_tracker : List (List Nat)
  last_filled_tracker : List (List Int)
  last_frame_intensity_tracker : List (List Nat)
  chunk_filled_tracker : List Bool
  tpf : Nat
  codec_version : Nat
  source_camera : SourceCamera
  ref_interval : Nat
  source_dtm : Nat
  chunk_rows : Nat
  plane_w : Nat
  plane_c : Nat
  deriving Repr

/-- `FrameSequence::is_frame_0_filled` (`driver.rs` lines 586-593). -/
def FrameSequence.is_frame_0_filled (fs : FrameSequence) : Bool :=
  fs.chunk_filled_tracker.all fun b => b

/-- `FrameSequence::px_at_current` (`driver.rs` lines 508-520): error
`UninitializedFrame` when the outer frames vector is empty, otherwise the
pixel of the oldest queued frame of the chunk containing row `y`. -/
def FrameSequence.px_at_current (fs : FrameSequence) (y x c : Nat) :
    Except PanicKind (Except FrameSequenceError (Option Nat)) :=
  if fs.frames.isEmpty then .ok (.error .uninitializedFrame)
  else if fs.chunk_rows = 0 then .error .divByZero
  else
    match fs.frames.get? (y / fs.chunk_rows) with
    | none => .error .indexOOB
    | some dq =>
      match dq.get? 0 with
      | none => .error .indexOOB
      | some f =>
        if y - (y / fs.chunk_rows) * fs.chunk_rows <
              f.array.length / (fs.plane_w * fs.plane_c) ∧
            x < fs.plane_w ∧ c < fs.plane_c then
          match f.array.get? (idx3 fs.plane_w fs.plane_c
              (y - (y / fs.chunk_rows) * fs.chunk_rows) x c) with
          | none => .error .indexOOB
          | some o => .ok (.ok o)
        else .error .indexOOB

/-- `FrameSequence::px_at_frame` (`driver.rs` lines 532-545). Note the
faithful quirk: the index bound compared against is `self.frames.len()`,
the number of chunks — not the chunk's queue length. -/
def FrameSequence.px_at_frame (fs : FrameSequence) (y x c frame_idx : Nat) :
    Except PanicKind (Except FrameSequenceError (Option Nat)) :=
  if fs.chunk_rows = 0 then .error .divByZero
  else if frame_idx < fs.frames.length then
    match fs.frames.get? (y / fs.chunk_rows) with
    | none => .error .indexOOB
    | some dq =>
      match dq.get? frame_idx with
      | none => .error .indexOOB
      | some f =>
        if y - (y / fs.chunk_rows) * fs.chunk_rows <
              f.array.length / (fs.plane_w * fs.plane_c) ∧
            x < fs.plane_w ∧ c < fs.plane_c then
          match f.array.get? (idx3 fs.plane_w fs.plane_c
              (y - (y / fs.chunk_rows) * fs.chunk_rows) x c) with
          | none => .error .indexOOB
          | some o => .ok (.ok o)
        else .error .indexOOB
  else .ok (.error .invalidIndex)

/-- A `FrameSequence` with one chunk whose queue holds two frames (reachable
by ingesting an event spanning two output frames on a 1×1 gray plane). -/
def fsOneChunkTwoFrames : FrameSequence :=
  { frames := [[⟨[some 7], 1⟩, ⟨[none], 0⟩]]
    frames_written := 0
    frame_idx_offsets := [1]
    pixel_ts_tracker := [[5]]
    last_filled_tracker := [[1]]
    last_frame_intensity_tracker := [[7]]
    chunk_filled_tracker := [false]
    tpf := 2
    codec_version := 0
    source_camera := .dvs
    ref_interval := 1
    source_dtm := 1
    chunk_rows := 64
    plane_w := 1
    plane_c := 1 }

/-- A `FrameSequence` with two chunks of one queued frame each
(a 2-row plane with `chunk_rows = 1`). -/
def fsTwoChunksOneFrame : FrameSequence :=
  { frames := [[⟨[none], 0⟩], [⟨[none], 0⟩]]
    frames_written := 0
    frame_idx_offsets := [0, 0]
    pixel_ts_tracker := [[0], [0]]
    last_filled_tracker := [[-1], [-1]]
    last_frame_intensity_tracker := [[0], [0]]
    chunk_filled_tracker := [false, false]
    tpf := 2
    codec_version := 0
    source_camera := .dvs
    ref_interval := 1
    source_dtm := 1
    chunk_rows := 1
    plane_w := 1
    plane_c := 1 }

/-- C6 fails on the code: `px_at_frame` compares `frame_idx` against the
number of chunks (`self.frames.len()`), not the chunk's queued-frame count.
With one chunk holding two queued frames, `px_at_frame(0,0,0,1)` returns
`InvalidIndex` although frame 1 exists in the queue; with two chunks holding
one queued frame each, `px_at_frame(0,0,0,1)` passes the bound check and
panics indexing the queue out of bounds instead of returning `InvalidIndex`.
`px_at_current` at the same state does return the oldest queued frame's
pixel. -/
theorem px_at_frame_wrong_bound :
    ((fsOneChunkTwoFrames.frames.getD 0 []).length = 2 ∧
      fsOneChunkTwoFrames.px_at_frame 0 0 0 1 = .ok (.error .invalidIndex)) ∧
    ((fsTwoChunksOneFrame.frames.getD 0 []).length = 1 ∧
      fsTwoChunksOneFrame.px_at_frame 0 0 0 1 = .error .indexOOB) ∧
    fsOneChunkTwoFrames.px_at_current 0 0 0 = .ok (.ok (some 7)) :=
  ⟨⟨rfl, rfl⟩, ⟨rfl, rfl⟩, rfl⟩

end Adder

namespace Adder

/-- The coordinate rewrite of `ingest_event` (`driver.rs` lines 389-391) and
`ingest_events_events` (lines 453-454): `event.coord.y -= chunk_num *
chunk_rows` with `chunk_num = event.coord.y / chunk_rows`; every other field
is untouched. -/
def rebaseEvent (chunk_rows : Nat) (e : Event) : Event :=
  ⟨⟨e.coord.x, e.coord.y - (e.coord.y / chunk_rows) * chunk_rows, e.coord.c⟩, e.d, e.delta_t⟩

/-- One chunk's mutable state, as sliced out by `ingest_event` /
`ingest_events_events`: the frame queue, the filled flag, and the chunk's
trackers. -/
structure ChunkState where
  frame_chunk : List Frame
  filled : Bool
  ts_tracker : List Nat
  frame_idx_offset : Int
  lf_tracker : List Int
  lfi_tracker : List Nat
  deriving Repr

/-- The per-event body shared by `ingest_event` (lines 393-417) and the
`ingest_events_events` closure (lines 455-477): read the pixel's trackers at
`[[y, x, channel]]`, run `ingest_event_for_chunk`, and write back the chunk's
state. -/
def ingestAtChunk (gfv : Event → Nat) (w chn : Nat) (fw : Int) (tpf cv : Nat)
    (cam : SourceCamera) (ri : Nat) (e : Event) (st : ChunkState) :
    Except PanicKind ChunkState :=
  if e.coord.y < st.lf_tracker.length / (w * chn) ∧ e.coord.x < w ∧
      e.coord.c.getD 0 < chn then
    match st.lf_tracker.get? (idx3 w chn e.coord.y e.coord.x (e.coord.c.getD 0)) with
    | none => .error .indexOOB
    | some lffv =>
      match st.ts_tracker.get? (idx3 w chn e.coord.y e.coord.x (e.coord.c.getD 0)) with
      | none => .error .indexOOB
      | some tsv =>
        match st.lfi_tracker.get? (idx3 w chn e.coord.y e.coord.x (e.coord.c.getD 0)) with
        | none => .error .indexOOB
        | some lfiv =>
          match ingest_event_for_chunk gfv (st.lf_tracker.length / (w * chn)) w chn e
              st.frame_chunk tsv st.frame_idx_offset lffv lfiv fw tpf cv cam ri with
          | .error p => .error p
          | .ok (chunk', ts', off', lff', li', filled) =>
            .ok ⟨chunk', filled,
              st.ts_tracker.set (idx3 w chn e.coord.y e.coord.x (e.coord.c.getD 0)) ts',
              off',
              st.lf_tracker.set (idx3 w chn e.coord.y e.coord.x (e.coord.c.getD 0)) lff',
              st.lfi_tracker.set (idx3 w chn e.coord.y e.coord.x (e.coord.c.getD 0)) li'⟩
  else .error .indexOOB

/-- `FrameSequence::ingest_event` (`driver.rs` lines 387-425): mutates the
event's `y` into chunk-local coordinates, ingests it into the owning chunk,
and reports whether every chunk's front frame is now filled. The returned
`Event` is the mutated argument. -/
def FrameSequence.ingest_event (gfv : Event → Nat) (fs : FrameSequence)
    (event : Event) : Except PanicKind (Event × FrameSequence × Bool) :=
  if fs.chunk_rows = 0 then .error .divByZero
  else
    match fs.frames.get? (event.coord.y / fs.chunk_rows) with
    | none => .error .indexOOB
    | some frame_chunk =>
      match fs.pixel_ts_tracker.get? (event.coord.y / fs.chunk_rows) with
      | none => .error .indexOOB
      | some tst =>
        match fs.last_filled_tracker.get? (event.coord.y / fs.chunk_rows) with
        | none => .error .indexOOB
        | some lft =>
          match fs.frame_idx_offsets.get? (event.coord.y / fs.chunk_rows) with
          | none => .error .indexOOB
          | some off =>
            match fs.last_frame_intensity_tracker.get? (event.coord.y / fs.chunk_rows) with
            | none => .error .indexOOB
            | some lfit =>
              match ingestAtChunk gfv fs.plane_w fs.plane_c fs.frames_written fs.tpf
                  fs.codec_version fs.source_camera fs.ref_interval
                  (rebaseEvent fs.chunk_rows event)
                  ⟨frame_chunk, false, tst, off, lft, lfit⟩ with
              | .error p => .error p
              | .ok st =>
                .ok (rebaseEvent fs.chunk_rows event,
                  { fs with
                      frames := fs.frames.set (event.coord.y / fs.chunk_rows) st.frame_chunk
                      pixel_ts_tracker :=
                        fs.pixel_ts_tracker.set (event.coord.y / fs.chunk_rows) st.ts_tracker
                      last_filled_tracker :=
                        fs.last_filled_tracker.set (event.coord.y / fs.chunk_rows) st.lf_tracker
                      last_frame_intensity_tracker :=
                        fs.last_frame_intensity_tracker.set (event.coord.y / fs.chunk_rows)
                          st.lfi_tracker
                      frame_idx_offsets :=
                        fs.frame_idx_offsets.set (event.coord.y / fs.chunk_rows)
                          st.frame_idx_offset
                      chunk_filled_tracker :=
                        fs.chunk_filled_tracker.set (event.coord.y / fs.chunk_rows) st.filled },
                  (fs.chunk_filled_tracker.set (event.coord.y / fs.chunk_rows)
                      st.filled).all fun b => b)

/-- The per-chunk event loop of `ingest_events_events` (`driver.rs` lines
451-478): each event of the chunk's group is rebased and ingested in order.
Returns the mutated events together with the chunk's final state. -/
def processChunkEvents (gfv : Event → Nat) (chunk_rows w chn : Nat) (fw : Int)
    (tpf cv : Nat) (cam : SourceCamera) (ri : Nat) :
    List Event → ChunkState → Except PanicKind (List Event × ChunkState)
  | [], st => .ok ([], st)
  | e :: rest, st =>
    if chunk_rows = 0 then .error .divByZero
    else
      match ingestAtChunk gfv w chn fw tpf cv cam ri (rebaseEvent chunk_rows e) st with
      | .error p => .error p
      | .ok st' =>
        match processChunkEvents gfv chunk_rows w chn fw tpf cv cam ri rest st' with
        | .error p => .error p
        | .ok (rest', st2) => .ok (rebaseEvent chunk_rows e :: rest', st2)

/-- The data-parallel fan-out of `ingest_events_events` (`driver.rs` lines
431-480), modelled sequentially (chunks own disjoint state, so the order is
immaterial). The error on a length mismatch models the `assert_eq!`. -/
def processAllChunks (gfv : Event → Nat) (chunk_rows w chn : Nat) (fw : Int)
    (tpf cv : Nat) (cam : SourceCamera) (ri : Nat) :
    List (List Event) → List ChunkState →
    Except PanicKind (List (List Event) × List ChunkState)
  | [], [] => .ok ([], [])
  | evs :: evss, st :: sts =>
    match processChunkEvents gfv chunk_rows w chn fw tpf cv cam ri evs st with
    | .error p => .error p
    | .ok (evs', st') =>
      match processAllChunks gfv chunk_rows w chn fw tpf cv cam ri evss sts with
      | .error p => .error p
      | .ok (evss', sts') => .ok (evs' :: evss', st' :: sts')
  | _, _ => .error .indexOOB

/-- Zip a `FrameSequence`'s parallel per-chunk vectors into `ChunkState`s. -/
def zipStates : List (List Frame) → List Bool → List (List Nat) → List Int →
    List (List Int) → List (List Nat) → List ChunkState
  | fc :: fcs, cf :: cfs, ts :: tss, off :: offs, lft :: lfts, lfi :: lfis =>
    ⟨fc, cf, ts, off, lft, lfi⟩ :: zipStates fcs cfs tss offs lfts lfis
  | _, _, _, _, _, _ => []

/-- `FrameSequence::ingest_events_events` (`driver.rs` lines 427-483):
requires one event group per chunk, processes each chunk's group in order
(mutating each event's `y` into chunk-local coordinates), and returns whether
frame 0 is filled. -/
def FrameSequence.ingest_events_events (gfv : Event → Nat) (fs : FrameSequence)
    (events : List (List Event)) :
    Except PanicKind (List (List Event) × FrameSequence × Bool) :=
  if events.length ≠ fs.frames.length then .error .indexOOB
  else
    match processAllChunks gfv fs.chunk_rows fs.plane_w fs.plane_c fs.frames_written
        fs.tpf fs.codec_version fs.source_camera fs.ref_interval events
        (zipStates fs.frames fs.chunk_filled_tracker fs.pixel_ts_tracker
          fs.frame_idx_offsets fs.last_filled_tracker
          fs.last_frame_intensity_tracker) with
    | .error p => .error p
    | .ok (evss', sts') =>
      .ok (evss',
        { fs with
            frames := sts'.map ChunkState.frame_chunk
            chunk_filled_tracker := sts'.map ChunkState.filled
            pixel_ts_tracker := sts'.map ChunkState.ts_tracker
            frame_idx_offsets := sts'.map ChunkState.frame_idx_offset
            last_filled_tracker := sts'.map ChunkState.lf_tracker
            last_frame_intensity_tracker := sts'.map ChunkState.lfi_tracker },
        (sts'.map ChunkState.filled).all fun b => b)

end Adder

namespace Adder

/-- Helper for C9: the per-chunk loop returns exactly the input events with
the chunk-local rebase applied, in order. -/
theorem processChunkEvents_fst (gfv : Event → Nat) (chunk_rows w chn : Nat)
    (fw : Int) (tpf cv : Nat) (cam : SourceCamera) (ri : Nat) :
    ∀ (evs : List Event) (st : ChunkState) (evs' : List Event) (st' : ChunkState),
      processChunkEvents gfv chunk_rows w chn fw tpf cv cam ri evs st =
        .ok (evs', st') →
      evs' = evs.map (rebaseEvent chunk_rows) := by
  intro evs
  induction evs with
  | nil =>
    intro st evs' st' h
    obtain ⟨rfl, -⟩ : ([] : List Event) = evs' ∧ st = st' := by
      simpa [processChunkEvents] using h
    simp
  | cons e rest ih =>
    intro st evs' st' h
    unfold processChunkEvents at h
    split at h
    · simp at h
    split at h
    · simp at h
    rename_i st1 hst1
    split at h
    · simp at h
    rename_i rest' st2 hrec
    obtain ⟨rfl, -⟩ : rebaseEvent chunk_rows e :: rest' = evs' ∧ st2 = st' := by
      simpa using h
    simp [ih st1 rest' st2 hrec]

/-- Helper for C9: the all-chunks fan-out rebases every chunk's events. -/
theorem processAllChunks_fst (gfv : Event → Nat) (chunk_rows w chn : Nat)
    (fw : Int) (tpf cv : Nat) (cam : SourceCamera) (ri : Nat) :
    ∀ (evss : List (List Event)) (sts : List ChunkState)
      (evss' : List (List Event)) (sts' : List ChunkState),
      processAllChunks gfv chunk_rows w chn fw tpf cv cam ri evss sts =
        .ok (evss', sts') →
      evss' = evss.map fun l => l.map (rebaseEvent chunk_rows) := by
  intro evss
  induction evss with
  | nil =>
    intro sts evss' sts' h
    cases sts with
    | nil =>
      obtain ⟨rfl, -⟩ : ([] : List (List Event)) = evss' ∧ ([] : List ChunkState) = sts' := by
        simpa [processAllChunks] using h
      simp
    | cons s ss => simp [processAllChunks] at h
  | cons evs evss ih =>
    intro sts evss' sts' h
    cases sts with
    | nil => simp [processAllChunks] at h
    | cons st sts =>
      unfold processAllChunks at h
      split at h
      · simp at h
      rename_i evs1 st1 hchunk
      split at h
      · simp at h
      rename_i evss1 sts1 hall
      obtain ⟨rfl, -⟩ : evs1 :: evss1 = evss' ∧ st1 :: sts1 = sts' := by simpa using h
      simp [processChunkEvents_fst gfv chunk_rows w chn fw tpf cv cam ri evs st evs1 st1 hchunk,
        ih sts evss1 sts1 hall]

/-- C9: `ingest_event` mutates its event argument in place: the returned
event has `y` replaced by `y - chunk_num * chunk_rows` (the chunk-local row,
`chunk_num = y / chunk_rows`) while `x`, `c`, `d` and `delta_t` are unchanged;
and `ingest_events_events` applies the same mutation to every event of every
chunk group. -/
theorem ingest_event_rebases :
    (∀ (gfv : Event → Nat) (fs : FrameSequence) (event : Event)
      (r : Event × FrameSequence × Bool),
      FrameSequence.ingest_event gfv fs event = .ok r →
      r.1 = rebaseEvent fs.chunk_rows event ∧
      r.1.coord.y = event.coord.y - (event.coord.y / fs.chunk_rows) * fs.chunk_rows ∧
      r.1.coord.x = event.coord.x ∧ r.1.coord.c = event.coord.c ∧
      r.1.d = event.d ∧ r.1.delta_t = event.delta_t) ∧
    (∀ (gfv : Event → Nat) (fs : FrameSequence) (events : List (List Event))
      (r : List (List Event) × FrameSequence × Bool),
      FrameSequence.ingest_events_events gfv fs events = .ok r →
      r.1 = events.map fun l => l.map (rebaseEvent fs.chunk_rows)) := by
  constructor
  · intro gfv fs event r h
    unfold FrameSequence.ingest_event at h
    repeat' split at h
    any_goals (simp at h ; done)
    injection h with h'
    subst h'
    exact ⟨rfl, by simp [rebaseEvent], rfl, rfl, rfl, rfl⟩
  · intro gfv fs events r h
    unfold FrameSequence.ingest_events_events at h
    split at h
    · simp at h
    split at h
    · simp at h
    rename_i evss' sts' hall
    injection h with h'
    subst h'
    exact processAllChunks_fst gfv fs.chunk_rows fs.plane_w fs.plane_c
      fs.frames_written fs.tpf fs.codec_version fs.source_camera fs.ref_interval
      events _ evss' sts' hall

end Adder

namespace Adder

/-- Witness for C9: ingesting the event `(x=0, y=1, c=None, d=5, Δt=1)` into
a two-chunk sequence with `chunk_rows = 1` rebases its `y` to 0 and leaves
the other fields alone; the parallel variant with empty per-chunk groups
returns the groups unchanged. -/
theorem ingest_event_rebases_witness :
    ((⟨⟨0, 0, none⟩, 5, 1⟩ : Event) =
        rebaseEvent fsTwoChunksOneFrame.chunk_rows ⟨⟨0, 1, none⟩, 5, 1⟩ ∧
      (⟨⟨0, 0, none⟩, 5, 1⟩ : Event).coord.y =
        1 - (1 / fsTwoChunksOneFrame.chunk_rows) * fsTwoChunksOneFrame.chunk_rows ∧
      (⟨⟨0, 0, none⟩, 5, 1⟩ : Event).coord.x = 0 ∧
      (⟨⟨0, 0, none⟩, 5, 1⟩ : Event).coord.c = none ∧
      (⟨⟨0, 0, none⟩, 5, 1⟩ : Event).d = 5 ∧
      (⟨⟨0, 0, none⟩, 5, 1⟩ : Event).delta_t = 1) ∧
    ([[], []] : List (List Event)) =
      [[], []].map fun l => l.map (rebaseEvent fsTwoChunksOneFrame.chunk_rows) :=
  ⟨ingest_event_rebases.1 (fun _ => 3) fsTwoChunksOneFrame ⟨⟨0, 1, none⟩, 5, 1⟩
      (⟨⟨0, 0, none⟩, 5, 1⟩,
        { frames := [[⟨[none], 0⟩], [⟨[some 3], 1⟩]]
          frames_written := 0
          frame_idx_offsets := [0, 0]
          pixel_ts_tracker := [[0], [1]]
          last_filled_tracker := [[-1], [0]]
          last_frame_intensity_tracker := [[0], [3]]
          chunk_filled_tracker := [false, true]
          tpf := 2
          codec_version := 0
          source_camera := .dvs
          ref_interval := 1
          source_dtm := 1
          chunk_rows := 1
          plane_w := 1
          plane_c := 1 }, false) (by rfl),
    ingest_event_rebases.2 (fun _ => 3) fsTwoChunksOneFrame [[], []]
      ([[], []], fsTwoChunksOneFrame, false) (by rfl)⟩

end Adder
